import Mathlib

/-!
Verification of the distributed-lock core of the `redisz` repository
(`src/redisz/__init__.py` and `src/redisz/utils.py`).

The shared key-value store is embedded as an association list from key
strings to cells; a cell holds the stored string value and an optional
expiry (in seconds, `none` when no expiry is set).  The store commands
used by the lock manager (`SETNX`, `EXPIRE`, `TTL`, `GET`, `DEL`) are
translated directly from their Redis semantics as used by the source.
Time is modelled by rational-valued clock readings supplied by the
environment; concurrent activity by other clients is modelled as an
arbitrary store transformation applied between loop iterations of the
client under study.
-/

/-- A stored cell: the string value under a key together with its optional
expiry in seconds (`none` = the key has no expiry set). -/
abbrev Cell := String × Option ℚ

/-- The shared store: an association list from keys to cells. -/
abbrev KV := List (String × Cell)

/-- Look up the cell stored under a key (first binding wins). -/
def kvGet (kv : KV) (k : String) : Option Cell :=
  match kv with
  | [] => none
  | (k1, c1) :: rest => if k1 = k then some c1 else kvGet rest k

/-- Store a cell under a key (replaces the first binding, else appends). -/
def kvSet (kv : KV) (k : String) (c : Cell) : KV :=
  match kv with
  | [] => [(k, c)]
  | (k1, c1) :: rest => if k1 = k then (k, c) :: rest else (k1, c1) :: kvSet rest k c

/-- Remove every binding of a key (Redis `DEL`, and also store-side lease
eviction). -/
def kvDel (kv : KV) (k : String) : KV :=
  match kv with
  | [] => []
  | (k1, c1) :: rest => if k1 = k then kvDel rest k else (k1, c1) :: kvDel rest k

/-- Redis `SETNX key value`: atomically set the key (with no expiry) only if
it is absent; returns whether the set happened. -/
def setnx (kv : KV) (k v : String) : Bool × KV :=
  match kvGet kv k with
  | some _ => (false, kv)
  | none => (true, kvSet kv k (v, none))

/-- Redis `EXPIRE key t`: set the expiry of an existing key. -/
def expire (kv : KV) (k : String) (t : ℚ) : Bool × KV :=
  match kvGet kv k with
  | none => (false, kv)
  | some (v, _) => (true, kvSet kv k (v, some t))

/-- Redis `TTL key`: `-2` when the key is absent, `-1` when it has no
expiry, otherwise the remaining time. -/
def ttl (kv : KV) (k : String) : ℚ :=
  match kvGet kv k with
  | none => -2
  | some (_, none) => -1
  | some (_, some t) => t

/-- Redis `GET key`: the stored string value, `none` when absent. -/
def getVal (kv : KV) (k : String) : Option String :=
  (kvGet kv k).map Prod.fst

/-- Function `utils.gen_lock_name`: the fixed namespace prefix applied to a
caller-supplied lock name by the legacy lock functions. -/
def gen_lock_name (lock_name : String) : String :=
  "redisz-lock:" ++ lock_name

/-- A store command issued by the client under study (used to log exactly
which commands a run sends to the store). -/
inductive Cmd where
  | setnxC (k v : String)
  | expireC (k : String) (t : ℚ)
  | ttlC (k : String)
  | getC (k : String)
  | delC (k : String)
deriving Repr, DecidableEq

/-- The environment of one polling-loop iteration: the reading of
`time.time()` at the `while` test, and the concurrent activity of other
store clients since the previous iteration. -/
structure IterEnv where
  time : ℚ
  interfere : KV → KV

/-- Result of a run of `acquire_lock`: the Python return value
(`some token` for the identifier, `none` for the `False` sentinel), the
final store, and the log of store commands issued by this client. -/
structure AcquireResult where
  ret : Option String
  store : KV
  cmds : List Cmd
deriving Repr, DecidableEq

/-- The `while time.time() < end` loop of `Redisz.acquire_lock`
(`__init__.py` lines 2413-2420): attempt `SETNX`; on success set the
expiry to `lockSec` and return the identifier; otherwise, if the key has
no expiry (`TTL = -1`), set the expiry to `lockSec`; then sleep and
retry.  The iteration schedule supplies the successive clock readings and
the interference of concurrent clients; an exhausted schedule ends the
run with the `False` sentinel. -/
def acquireLoop (key token : String) (lockSec : ℚ) (endT : ℚ) :
    List IterEnv → KV → AcquireResult
  | [], kv => ⟨none, kv, []⟩
  | e :: rest, kv =>
    if e.time < endT then
      let kv1 := e.interfere kv
      match setnx kv1 key token with
      | (true, kv2) =>
        ⟨some token, (expire kv2 key lockSec).2,
          [Cmd.setnxC key token, Cmd.expireC key lockSec]⟩
      | (false, kv2) =>
        if ttl kv2 key = -1 then
          let r := acquireLoop key token lockSec endT rest (expire kv2 key lockSec).2
          ⟨r.ret, r.store,
            Cmd.setnxC key token :: Cmd.ttlC key :: Cmd.expireC key lockSec :: r.cmds⟩
        else
          let r := acquireLoop key token lockSec endT rest kv2
          ⟨r.ret, r.store, Cmd.setnxC key token :: Cmd.ttlC key :: r.cmds⟩
    else ⟨none, kv, []⟩

/-- Method `Redisz.acquire_lock(lock_name, lock_seconds, acquire_seconds)`
(`__init__.py` lines 2408-2421).  `token` stands for the freshly generated
`str(uuid.uuid4())` identifier; `lock_seconds` is a natural number as its
documented type is `int`, on which the source's `int(math.ceil(·))` is the
identity; `t0` is the reading of `time.time()` at `end = time.time() +
acquire_seconds`, so the loop deadline is `t0 + acquireSec`. -/
def Redisz.acquire_lock (lock_name token : String) (lockSec : ℕ)
    (acquireSec t0 : ℚ) (sched : List IterEnv) (kv : KV) : AcquireResult :=
  acquireLoop (gen_lock_name lock_name) token (lockSec : ℚ) (t0 + acquireSec) sched kv

/-- The environment of one attempt of `release_lock`'s `while True` loop:
the concurrent activity since the previous attempt, and whether the
watched key is modified between `WATCH` and `EXEC` (in which case
`pipe.execute()` raises `WatchError`, which the source catches and
retries). -/
structure ReleaseEnv where
  interfere : KV → KV
  conflict : Bool

/-- The `while True` loop of `Redisz.release_lock` (`__init__.py` lines
2442-2453): watch the key, read its value; if it equals the identifier,
transactionally delete it and return `True`, retrying the whole attempt
when the transaction is aborted by a watch conflict; if it differs,
unwatch and return `False`.  `none` means the attempt schedule was
exhausted while every attempt so far was aborted by a conflict (the
source would still be retrying). -/
def releaseLoop (key identifier : String) :
    List ReleaseEnv → KV → Option (Bool × KV)
  | [], _ => none
  | e :: rest, kv =>
    let kv1 := e.interfere kv
    if getVal kv1 key = some identifier then
      if e.conflict then releaseLoop key identifier rest kv1
      else some (true, kvDel kv1 key)
    else some (false, kv1)

/-- Method `Redisz.release_lock(lockname, identifier)` (`__init__.py` lines
2440-2455): the retry loop run at the namespaced key. -/
def Redisz.release_lock (lockname identifier : String)
    (sched : List ReleaseEnv) (kv : KV) : Option (Bool × KV) :=
  releaseLoop (gen_lock_name lockname) identifier sched kv

/-- The in-process lock handle built by `Redisz.lock`: the configuration
it passes to `redis.lock.Lock` (`__init__.py` line 2363). -/
structure LockHandle where
  name : String
  timeout : ℚ
  sleep : ℚ
  blocking : Bool
  blocking_timeout : ℚ
  thread_local : Bool
deriving Repr, DecidableEq

/-- Method `Redisz.lock(name, *, timeout=10, blocking=False, blocking_timeout=2,
sleep=0.1, thread_local=True)` (`__init__.py` lines 2321-2363): constructs
the handle, passing `name` and every option verbatim
(`Lock(self.get_redis(), name=name, timeout=timeout, sleep=sleep,
blocking=blocking, blocking_timeout=blocking_timeout,
thread_local=thread_local)`). -/
def Redisz.lock (name : String) (timeout : ℚ := 10) (blocking : Bool := false)
    (blocking_timeout : ℚ := 2) (sleep : ℚ := 1/10)
    (thread_local : Bool := true) : LockHandle :=
  ⟨name, timeout, sleep, blocking, blocking_timeout, thread_local⟩

/-- Atomic set-if-absent together with the lease expiry (Redis
`SET key value NX PX lease`, the primitive `redis.lock.Lock` uses). -/
def setnxEx (kv : KV) (k v : String) (lease : ℚ) : Bool × KV :=
  match kvGet kv k with
  | some _ => (false, kv)
  | none => (true, kvSet kv k (v, some lease))

/-- Modelled from the spec: `redis.lock.Lock.acquire` is third-party
library code not under `src/`.  Spec section 4.2: "`acquire() -> bool`:
attempts an atomic set-if-absent of a fresh token under the lease
duration.  If it fails and blocking is disabled, returns false
immediately.  If blocking is enabled, retries every poll_interval until
success or blocking_wait elapses, then returns false."  The blocking
retry loop is modelled like `acquireLoop`, with the deadline
`t0 + blocking_timeout`. -/
def lockAcquireLoop (key token : String) (lease : ℚ) (endT : ℚ) :
    List IterEnv → KV → Bool × KV
  | [], kv => (false, kv)
  | e :: rest, kv =>
    if e.time < endT then
      let kv1 := e.interfere kv
      match setnxEx kv1 key token lease with
      | (true, kv2) => (true, kv2)
      | (false, kv2) => lockAcquireLoop key token lease endT rest kv2
    else (false, kv)

/-- Modelled from the spec (see `lockAcquireLoop`): a handle's `acquire`.
Non-blocking: a single set-if-absent attempt, returning false immediately
on contention.  Blocking: the polling loop bounded by
`blocking_timeout`. -/
def LockHandle.acquire (h : LockHandle) (token : String) (t0 : ℚ)
    (sched : List IterEnv) (kv : KV) : Bool × KV :=
  if h.blocking then
    lockAcquireLoop h.name token h.timeout (t0 + h.blocking_timeout) sched kv
  else setnxEx kv h.name token h.timeout

/-- A Python keyword-argument value (only the shape matters here). -/
inductive KwVal where
  | boolV (b : Bool)
  | otherV (n : ℕ)
deriving Repr, DecidableEq

/-- Python dict lookup on the keyword arguments. -/
def kwLookup (kwargs : List (String × KwVal)) (k : String) : Option KwVal :=
  match kwargs with
  | [] => none
  | (k1, v1) :: rest => if k1 = k then some v1 else kwLookup rest k

/-- The constructor's keyword-argument defaulting (`__init__.py` lines
44-45): `if 'decode_responses' not in kwargs:
kwargs['decode_responses'] = True`. -/
def initKwargs (kwargs : List (String × KwVal)) : List (String × KwVal) :=
  if (kwLookup kwargs "decode_responses").isSome then kwargs
  else kwargs ++ [("decode_responses", KwVal.boolV true)]

/-- An atomic store event in an interleaved run of several lock clients:
a set-if-absent attempt by some acquirer, an expiry update, a deletion by
a release, or the store's own lease eviction. -/
inductive Event where
  | setnxE (k v : String)
  | expireE (k : String) (t : ℚ)
  | delE (k : String)
  | evictE (k : String)
deriving Repr, DecidableEq

/-- Effect of one atomic store event. -/
def applyEvent (kv : KV) : Event → KV
  | .setnxE k v => (setnx kv k v).2
  | .expireE k t => (expire kv k t).2
  | .delE k => kvDel kv k
  | .evictE k => kvDel kv k

/-- Run a whole interleaved event trace from an initial store. -/
def runTrace (kv : KV) : List Event → KV
  | [] => kv
  | e :: es => runTrace (applyEvent kv e) es

theorem kvGet_kvSet_self (kv : KV) (k : String) (c : Cell) :
    kvGet (kvSet kv k c) k = some c := by
  induction kv with
  | nil => simp [kvGet, kvSet]
  | cons hd tl ih =>
    obtain ⟨k1, c1⟩ := hd
    by_cases h : k1 = k
    · simp [kvGet, kvSet, h]
    · simpa [kvGet, kvSet, h] using ih

theorem kvGet_kvSet_ne (kv : KV) (k k2 : String) (c : Cell) (h : k2 ≠ k) :
    kvGet (kvSet kv k c) k2 = kvGet kv k2 := by
  induction kv with
  | nil => simp [kvGet, kvSet, Ne.symm h]
  | cons hd tl ih =>
    obtain ⟨k1, c1⟩ := hd
    by_cases h1 : k1 = k
    · subst h1
      simp [kvGet, kvSet, Ne.symm h]
    · by_cases h2 : k1 = k2
      · simp [kvGet, kvSet, h1, h2, h]
      · simpa [kvGet, kvSet, h1, h2] using ih

theorem kvGet_kvDel_self (kv : KV) (k : String) :
    kvGet (kvDel kv k) k = none := by
  induction kv with
  | nil => simp [kvGet, kvDel]
  | cons hd tl ih =>
    obtain ⟨k1, c1⟩ := hd
    by_cases h : k1 = k
    · simpa [kvDel, h] using ih
    · simpa [kvGet, kvDel, h] using ih

theorem kvGet_kvDel_ne (kv : KV) (k k2 : String) (h : k2 ≠ k) :
    kvGet (kvDel kv k) k2 = kvGet kv k2 := by
  induction kv with
  | nil => simp [kvDel]
  | cons hd tl ih =>
    obtain ⟨k1, c1⟩ := hd
    by_cases h1 : k1 = k
    · subst h1
      simp [kvGet, kvDel, Ne.symm h, ih]
    · by_cases h2 : k1 = k2
      · simp [kvGet, kvDel, h1, h2, h]
      · simpa [kvGet, kvDel, h1, h2] using ih

theorem setnx_of_absent (kv : KV) (k v : String) (h : kvGet kv k = none) :
    setnx kv k v = (true, kvSet kv k (v, none)) := by
  simp [setnx, h]

theorem setnx_of_present (kv : KV) (k v : String) (c : Cell)
    (h : kvGet kv k = some c) : setnx kv k v = (false, kv) := by
  simp [setnx, h]

theorem expire_of_present (kv : KV) (k : String) (t : ℚ) (v : String)
    (e0 : Option ℚ) (h : kvGet kv k = some (v, e0)) :
    expire kv k t = (true, kvSet kv k (v, some t)) := by
  simp [expire, h]

theorem acquireLoop_ret_some (key token : String) (lockSec endT : ℚ)
    (sched : List IterEnv) (kv : KV) (t : String)
    (h : (acquireLoop key token lockSec endT sched kv).ret = some t) :
    t = token ∧
    kvGet (acquireLoop key token lockSec endT sched kv).store key
      = some (token, some lockSec) := by
  induction sched generalizing kv with
  | nil => simp [acquireLoop] at h
  | cons e rest ih =>
    by_cases ht : e.time < endT
    · rcases h1 : kvGet (e.interfere kv) key with _ | c
      · have hs := setnx_of_absent (e.interfere kv) key token h1
        have h2 : kvGet (kvSet (e.interfere kv) key (token, none)) key
            = some (token, none) := kvGet_kvSet_self _ _ _
        have he := expire_of_present _ key lockSec token none h2
        simp [acquireLoop, ht, hs, he] at h ⊢
        exact ⟨h.symm, kvGet_kvSet_self _ _ _⟩
      · have hs := setnx_of_present (e.interfere kv) key token c h1
        by_cases htt : ttl (e.interfere kv) key = -1
        · simp only [acquireLoop, ht, if_true, hs, htt, if_pos] at h ⊢
          exact ih _ h
        · simp only [acquireLoop, ht, if_true, hs, htt, if_neg, if_false] at h ⊢
          exact ih _ h
    · simp [acquireLoop, ht] at h

theorem acquireLoop_past_deadline (key token : String) (lockSec endT : ℚ)
    (e : IterEnv) (rest : List IterEnv) (kv : KV) (h : ¬e.time < endT) :
    acquireLoop key token lockSec endT (e :: rest) kv = ⟨none, kv, []⟩ := by
  simp [acquireLoop, h]

/-- C2: `acquire_lock(lock_name, lock_seconds, acquire_seconds)` loops
until the deadline `t0 + acquire_seconds`; whenever it returns an
identifier it is the freshly generated token and the namespaced lock key
then holds that token with its expiry set to `lock_seconds`; once the
clock reaches the deadline without a successful `SETNX` it returns the
`False` sentinel (every run returns either the token or `False`, never an
exception). -/
theorem acquire_lock_contract (lock_name token : String) (lockSec : ℕ)
    (acquireSec t0 : ℚ) :
    (∀ (sched : List IterEnv) (kv : KV) (t : String),
        (Redisz.acquire_lock lock_name token lockSec acquireSec t0 sched kv).ret
          = some t →
        t = token ∧
        kvGet (Redisz.acquire_lock lock_name token lockSec acquireSec t0 sched kv).store
            (gen_lock_name lock_name) = some (token, some (lockSec : ℚ)))
    ∧ (∀ (e : IterEnv) (rest : List IterEnv) (kv : KV),
        t0 + acquireSec ≤ e.time →
        Redisz.acquire_lock lock_name token lockSec acquireSec t0 (e :: rest) kv
          = ⟨none, kv, []⟩)
    ∧ (∀ (sched : List IterEnv) (kv : KV),
        (Redisz.acquire_lock lock_name token lockSec acquireSec t0 sched kv).ret = none
        ∨ (Redisz.acquire_lock lock_name token lockSec acquireSec t0 sched kv).ret
            = some token) := by
  refine ⟨?_, ?_, ?_⟩
  · intro sched kv t h
    exact acquireLoop_ret_some _ _ _ _ _ _ _ h
  · intro e rest kv h
    exact acquireLoop_past_deadline _ _ _ _ _ _ _ (not_lt.mpr h)
  · intro sched kv
    rcases hr : (Redisz.acquire_lock lock_name token lockSec acquireSec t0 sched kv).ret
      with _ | t
    · exact Or.inl rfl
    · exact Or.inr (congrArg some (acquireLoop_ret_some _ _ _ _ _ _ _ hr).1)

/-- Witness for C2: a concrete one-iteration run on a free lock acquires
it, returns the token, and leaves the key with the token and expiry. -/
theorem acquire_lock_contract_wit :
    (Redisz.acquire_lock "a" "tok" 10 10 0 [⟨0, fun s => s⟩] []).ret = some "tok"
    ∧ ("tok" = "tok"
        ∧ kvGet (Redisz.acquire_lock "a" "tok" 10 10 0 [⟨0, fun s => s⟩] []).store
            (gen_lock_name "a") = some ("tok", some ((10 : ℕ) : ℚ))) :=
  ⟨by simp [Redisz.acquire_lock, acquireLoop, setnx, kvGet, kvSet, expire, gen_lock_name],
    (acquire_lock_contract "a" "tok" 10 10 0).1 [⟨0, fun s => s⟩] [] "tok"
      (by simp [Redisz.acquire_lock, acquireLoop, setnx, kvGet, kvSet, expire,
        gen_lock_name])⟩

/-- C9: with a non-positive `acquire_seconds` (and a clock that never runs
backwards past the start reading), `acquire_lock` returns the `False`
sentinel at once, issuing no store command and leaving the store
untouched, even when the lock key is absent. -/
theorem acquire_lock_nonpositive_wait (lock_name token : String) (lockSec : ℕ)
    (acquireSec t0 : ℚ) (sched : List IterEnv) (kv : KV)
    (hA : acquireSec ≤ 0) (hT : ∀ e ∈ sched, t0 ≤ e.time) :
    Redisz.acquire_lock lock_name token lockSec acquireSec t0 sched kv
      = ⟨none, kv, []⟩ := by
  cases sched with
  | nil => rfl
  | cons e rest =>
    have h1 : t0 + acquireSec ≤ e.time :=
      le_trans (by linarith) (hT e (List.mem_cons_self _ _))
    exact acquireLoop_past_deadline _ _ _ _ _ _ _ (not_lt.mpr h1)

/-- Witness for C9: a concrete zero-wait call on an empty (lock-free)
store returns `False` with an empty command log. -/
theorem acquire_lock_nonpositive_wait_wit :
    ((0 : ℚ) ≤ 0 ∧ ∀ e ∈ [(⟨5, fun s => s⟩ : IterEnv)], (3 : ℚ) ≤ e.time)
    ∧ Redisz.acquire_lock "a" "tok" 10 0 3 [⟨5, fun s => s⟩] [] = ⟨none, [], []⟩ :=
  ⟨⟨by decide, by decide⟩,
    acquire_lock_nonpositive_wait "a" "tok" 10 0 3 [⟨5, fun s => s⟩] []
      (by decide) (by decide)⟩

/-- C5: on a contention iteration where `SETNX` fails and the key has no
expiry (`TTL = -1`), the loop sets the expiry to `lock_seconds` and
changes nothing else: the stored ownership token is untouched and the
iteration does not return success — the run's outcome is that of the
remaining loop on the repaired store. -/
theorem acquire_orphan_repair (key token : String) (lockSec endT : ℚ)
    (e : IterEnv) (rest : List IterEnv) (kv : KV) (v : String)
    (ht : e.time < endT) (hk : kvGet (e.interfere kv) key = some (v, none)) :
    kvGet (kvSet (e.interfere kv) key (v, some lockSec)) key
      = some (v, some lockSec)
    ∧ (acquireLoop key token lockSec endT (e :: rest) kv).ret
        = (acquireLoop key token lockSec endT rest
            (kvSet (e.interfere kv) key (v, some lockSec))).ret
    ∧ (acquireLoop key token lockSec endT (e :: rest) kv).store
        = (acquireLoop key token lockSec endT rest
            (kvSet (e.interfere kv) key (v, some lockSec))).store := by
  have hs := setnx_of_present (e.interfere kv) key token (v, none) hk
  have htt : ttl (e.interfere kv) key = -1 := by simp [ttl, hk]
  have he := expire_of_present (e.interfere kv) key lockSec v none hk
  refine ⟨kvGet_kvSet_self _ _ _, ?_, ?_⟩ <;>
    simp only [acquireLoop, ht, if_true, hs, htt, if_pos, he]

/-- Witness for C5: a concrete orphaned key (value present, no expiry)
gains the expiry while keeping its value, and the iteration falls through
to the rest of the loop. -/
theorem acquire_orphan_repair_wit :
    ((0 : ℚ) < 1
      ∧ kvGet ((⟨0, fun s => s⟩ : IterEnv).interfere [("k", ("v", none))]) "k"
          = some ("v", none))
    ∧ (kvGet (kvSet ((⟨0, fun s => s⟩ : IterEnv).interfere [("k", ("v", none))])
          "k" ("v", some 5)) "k" = some ("v", some 5)
      ∧ (acquireLoop "k" "t" 5 1 [⟨0, fun s => s⟩] [("k", ("v", none))]).ret
          = (acquireLoop "k" "t" 5 1 []
              (kvSet ((⟨0, fun s => s⟩ : IterEnv).interfere [("k", ("v", none))])
                "k" ("v", some 5))).ret
      ∧ (acquireLoop "k" "t" 5 1 [⟨0, fun s => s⟩] [("k", ("v", none))]).store
          = (acquireLoop "k" "t" 5 1 []
              (kvSet ((⟨0, fun s => s⟩ : IterEnv).interfere [("k", ("v", none))])
                "k" ("v", some 5))).store) :=
  ⟨⟨by decide, by decide⟩,
    acquire_orphan_repair "k" "t" 5 1 ⟨0, fun s => s⟩ [] [("k", ("v", none))] "v"
      (by decide) (by decide)⟩

/-- C7: the lock key acquired through the manager always carries an
expiry: a successful acquire leaves the key with expiry `lock_seconds`,
and a contention iteration that observes a key with no expiry hands the
rest of the loop a store in which the key has expiry `lock_seconds` —
so no key persists without an expiry beyond one contention cycle. -/
theorem acquire_expiry_invariant (key token : String) (lockSec endT : ℚ) :
    (∀ (sched : List IterEnv) (kv : KV),
        ((acquireLoop key token lockSec endT sched kv).ret).isSome →
        kvGet (acquireLoop key token lockSec endT sched kv).store key
          = some (token, some lockSec))
    ∧ (∀ (e : IterEnv) (rest : List IterEnv) (kv : KV) (v : String),
        e.time < endT → kvGet (e.interfere kv) key = some (v, none) →
        ∃ kv2 : KV, kvGet kv2 key = some (v, some lockSec)
          ∧ (acquireLoop key token lockSec endT (e :: rest) kv).store
              = (acquireLoop key token lockSec endT rest kv2).store) := by
  constructor
  · intro sched kv h
    rcases hr : (acquireLoop key token lockSec endT sched kv).ret with _ | t
    · rw [hr] at h; simp at h
    · exact (acquireLoop_ret_some key token lockSec endT sched kv t hr).2
  · intro e rest kv v ht hk
    have hs := setnx_of_present (e.interfere kv) key token (v, none) hk
    have htt : ttl (e.interfere kv) key = -1 := by simp [ttl, hk]
    have he := expire_of_present (e.interfere kv) key lockSec v none hk
    refine ⟨kvSet (e.interfere kv) key (v, some lockSec),
      kvGet_kvSet_self _ _ _, ?_⟩
    simp only [acquireLoop, ht, if_true, hs, htt, if_pos, he]

/-- Witness for C7: a concrete successful acquire leaves the key with the
token and expiry; a concrete orphan iteration hands over a repaired
store. -/
theorem acquire_expiry_invariant_wit :
    ((acquireLoop "k" "t" 5 1 [⟨0, fun s => s⟩] []).ret).isSome = true
    ∧ kvGet (acquireLoop "k" "t" 5 1 [⟨0, fun s => s⟩] []).store "k"
        = some ("t", some 5)
    ∧ ∃ kv2 : KV, kvGet kv2 "k" = some ("v", some 5)
        ∧ (acquireLoop "k" "t" 5 1 [⟨0, fun s => s⟩] [("k", ("v", none))]).store
            = (acquireLoop "k" "t" 5 1 [] kv2).store :=
  ⟨by decide,
    (acquire_expiry_invariant "k" "t" 5 1).1 [⟨0, fun s => s⟩] [] (by decide),
    (acquire_expiry_invariant "k" "t" 5 1).2 ⟨0, fun s => s⟩ [] [("k", ("v", none))]
      "v" (by decide) (by decide)⟩

/-- C1: whenever `release_lock` returns, there is a store `kvd` — the
watched store at the deciding attempt — such that: it returned `True`
exactly when the value under the namespaced lock key equalled the
caller's identifier, and then the key was deleted; and it returned
`False` exactly when the value differed (a new holder's token, or no key
at all), and then the store — including any new holder's key — was left
unchanged. -/
theorem release_lock_ownership (lockname identifier : String)
    (sched : List ReleaseEnv) (kv : KV) (b : Bool) (kv2 : KV)
    (h : Redisz.release_lock lockname identifier sched kv = some (b, kv2)) :
    ∃ kvd : KV,
      (b = true →
        getVal kvd (gen_lock_name lockname) = some identifier
        ∧ kv2 = kvDel kvd (gen_lock_name lockname)
        ∧ kvGet kv2 (gen_lock_name lockname) = none)
      ∧ (b = false →
        getVal kvd (gen_lock_name lockname) ≠ some identifier ∧ kv2 = kvd) := by
  induction sched generalizing kv with
  | nil => simp [Redisz.release_lock, releaseLoop] at h
  | cons e rest ih =>
    by_cases hv : getVal (e.interfere kv) (gen_lock_name lockname) = some identifier
    · by_cases hc : e.conflict
      · have hstep : Redisz.release_lock lockname identifier (e :: rest) kv
            = Redisz.release_lock lockname identifier rest (e.interfere kv) := by
          simp [Redisz.release_lock, releaseLoop, hv, hc]
        exact ih _ (hstep ▸ h)
      · have hstep : Redisz.release_lock lockname identifier (e :: rest) kv
            = some (true, kvDel (e.interfere kv) (gen_lock_name lockname)) := by
          simp [Redisz.release_lock, releaseLoop, hv, hc]
        rw [hstep] at h
        obtain ⟨hb, hkv⟩ := Prod.mk.injEq .. ▸ Option.some.injEq .. ▸ h
        refine ⟨e.interfere kv, fun _ => ⟨hv, hkv.symm, ?_⟩, fun hb2 => ?_⟩
        · rw [← hkv]; exact kvGet_kvDel_self _ _
        · rw [← hb] at hb2; exact absurd hb2 (by simp)
    · have hstep : Redisz.release_lock lockname identifier (e :: rest) kv
          = some (false, e.interfere kv) := by
        simp [Redisz.release_lock, releaseLoop, hv]
      rw [hstep] at h
      obtain ⟨hb, hkv⟩ := Prod.mk.injEq .. ▸ Option.some.injEq .. ▸ h
      refine ⟨e.interfere kv, fun hb2 => ?_, fun _ => ⟨hv, hkv.symm⟩⟩
      rw [← hb] at hb2; exact absurd hb2 (by simp)

/-- Witness for C1: releasing with the matching identifier deletes the
key and returns `True` (concrete single-attempt run). -/
theorem release_lock_ownership_wit :
    Redisz.release_lock "a" "t" [⟨fun s => s, false⟩]
        [("redisz-lock:a", ("t", none))] = some (true, [])
    ∧ ∃ kvd : KV,
      (true = true →
        getVal kvd (gen_lock_name "a") = some "t"
        ∧ ([] : KV) = kvDel kvd (gen_lock_name "a")
        ∧ kvGet ([] : KV) (gen_lock_name "a") = none)
      ∧ (true = false →
        getVal kvd (gen_lock_name "a") ≠ some "t" ∧ ([] : KV) = kvd) :=
  ⟨by decide,
    release_lock_ownership "a" "t" [⟨fun s => s, false⟩]
      [("redisz-lock:a", ("t", none))] true [] (by decide)⟩

/-- C6: a `release_lock` attempt aborted by a watch conflict (concurrent
modification between watch and commit, raising `WatchError`) is retried
internally — the run continues as the same loop on the interfered store —
and the conflict is never surfaced; as soon as some attempt is free of
conflicts the function terminates, returning a plain boolean. -/
theorem release_watch_retry (lockname identifier : String) :
    (∀ (e : ReleaseEnv) (rest : List ReleaseEnv) (kv : KV),
        e.conflict = true →
        getVal (e.interfere kv) (gen_lock_name lockname) = some identifier →
        Redisz.release_lock lockname identifier (e :: rest) kv
          = Redisz.release_lock lockname identifier rest (e.interfere kv))
    ∧ (∀ (sched : List ReleaseEnv) (kv : KV),
        (∃ e ∈ sched, e.conflict = false) →
        ∃ (b : Bool) (kv2 : KV),
          Redisz.release_lock lockname identifier sched kv = some (b, kv2)) := by
  constructor
  · intro e rest kv hc hv
    simp [Redisz.release_lock, releaseLoop, hv, hc]
  · intro sched
    induction sched with
    | nil => intro kv h; simp at h
    | cons e rest ih =>
      intro kv h
      by_cases hv : getVal (e.interfere kv) (gen_lock_name lockname)
          = some identifier
      · by_cases hc : e.conflict
        · have h2 : ∃ e2 ∈ rest, e2.conflict = false := by
            rcases h with ⟨e2, he2, hce2⟩
            rcases List.mem_cons.mp he2 with rfl | hmem
            · exact absurd hc (by simp [hce2])
            · exact ⟨e2, hmem, hce2⟩
          have hstep : Redisz.release_lock lockname identifier (e :: rest) kv
              = Redisz.release_lock lockname identifier rest (e.interfere kv) := by
            simp [Redisz.release_lock, releaseLoop, hv, hc]
          rw [hstep]
          exact ih _ h2
        · exact ⟨true, kvDel (e.interfere kv) (gen_lock_name lockname),
            by simp [Redisz.release_lock, releaseLoop, hv, hc]⟩
      · exact ⟨false, e.interfere kv,
          by simp [Redisz.release_lock, releaseLoop, hv]⟩

/-- Witness for C6: a conflicting first attempt is retried as the rest of
the loop, and a schedule with a conflict-free attempt returns a boolean. -/
theorem release_watch_retry_wit :
    (Redisz.release_lock "a" "t" [⟨fun s => s, true⟩, ⟨fun s => s, false⟩]
        [("redisz-lock:a", ("t", none))]
      = Redisz.release_lock "a" "t" [⟨fun s => s, false⟩]
        [("redisz-lock:a", ("t", none))])
    ∧ ∃ (b : Bool) (kv2 : KV),
        Redisz.release_lock "a" "t" [⟨fun s => s, true⟩, ⟨fun s => s, false⟩]
          [("redisz-lock:a", ("t", none))] = some (b, kv2) :=
  ⟨(release_watch_retry "a" "t").1 ⟨fun s => s, true⟩ [⟨fun s => s, false⟩]
      [("redisz-lock:a", ("t", none))] rfl (by decide),
    (release_watch_retry "a" "t").2 [⟨fun s => s, true⟩, ⟨fun s => s, false⟩]
      [("redisz-lock:a", ("t", none))]
      ⟨⟨fun s => s, false⟩, by simp, rfl⟩⟩

theorem kwLookup_append_absent (kwargs : List (String × KwVal)) (k : String)
    (v : KwVal) (h : kwLookup kwargs k = none) :
    kwLookup (kwargs ++ [(k, v)]) k = some v := by
  induction kwargs with
  | nil => simp [kwLookup]
  | cons hd tl ih =>
    obtain ⟨k1, v1⟩ := hd
    by_cases h1 : k1 = k
    · simp [kwLookup, h1] at h
    · simp only [kwLookup, h1, if_neg, List.cons_append] at h ⊢
      simp only [h1, if_false]
      exact ih h

/-- C10: when the constructor is called without a `decode_responses`
keyword argument, it forces `decode_responses = True` on the client (and
passes the arguments through untouched otherwise); correspondingly the
ownership check of `release_lock` is an equality of decoded strings — a
single conflict-free attempt returns exactly the boolean of the
string-equality test between the stored value and the identifier. -/
theorem decode_responses_default :
    (∀ kwargs : List (String × KwVal), kwLookup kwargs "decode_responses" = none →
        kwLookup (initKwargs kwargs) "decode_responses" = some (KwVal.boolV true))
    ∧ (∀ (kwargs : List (String × KwVal)) (v : KwVal),
        kwLookup kwargs "decode_responses" = some v → initKwargs kwargs = kwargs)
    ∧ (∀ (lockname identifier : String) (kv : KV),
        (Redisz.release_lock lockname identifier [⟨fun s => s, false⟩] kv).map
            Prod.fst
          = some (decide (getVal kv (gen_lock_name lockname)
              = some identifier))) := by
  refine ⟨?_, ?_, ?_⟩
  · intro kwargs h
    simp only [initKwargs, h, Option.isSome_none, Bool.false_eq_true, if_false]
    exact kwLookup_append_absent kwargs _ _ h
  · intro kwargs v h
    simp [initKwargs, h]
  · intro lockname identifier kv
    by_cases hv : getVal kv (gen_lock_name lockname) = some identifier
    · simp [Redisz.release_lock, releaseLoop, hv]
    · simp [Redisz.release_lock, releaseLoop, hv]

/-- Witness for C10: a kwargs list without `decode_responses` gains it
with value `True`, and a concrete release attempt decides by string
equality. -/
theorem decode_responses_default_wit :
    (kwLookup [("url", KwVal.otherV 0)] "decode_responses" = none
      ∧ kwLookup (initKwargs [("url", KwVal.otherV 0)]) "decode_responses"
          = some (KwVal.boolV true))
    ∧ (Redisz.release_lock "a" "t" [⟨fun s => s, false⟩]
        [("redisz-lock:a", ("t", none))]).map Prod.fst
      = some (decide (getVal [("redisz-lock:a", ("t", none))] (gen_lock_name "a")
          = some "t")) :=
  ⟨⟨by decide, (decode_responses_default.1 [("url", KwVal.otherV 0)] (by decide))⟩,
    decode_responses_default.2.2 "a" "t" [("redisz-lock:a", ("t", none))]⟩

theorem runTrace_append (kv : KV) (xs ys : List Event) :
    runTrace kv (xs ++ ys) = runTrace (runTrace kv xs) ys := by
  induction xs generalizing kv with
  | nil => rfl
  | cons e es ih => simp [runTrace, ih]

theorem applyEvent_keeps_key (kv : KV) (ev : Event) (k : String)
    (h : kvGet kv k ≠ none) (h1 : ev ≠ Event.delE k) (h2 : ev ≠ Event.evictE k) :
    kvGet (applyEvent kv ev) k ≠ none := by
  cases ev with
  | setnxE k2 v =>
    rcases hg : kvGet kv k2 with _ | c
    · by_cases he : k2 = k
      · subst he
        simp [applyEvent, setnx, hg, kvGet_kvSet_self]
      · simpa [applyEvent, setnx, hg, kvGet_kvSet_ne kv k2 k _ (Ne.symm he)] using h
    · simpa [applyEvent, setnx, hg] using h
  | expireE k2 t =>
    rcases hg : kvGet kv k2 with _ | c
    · simpa [applyEvent, expire, hg] using h
    · obtain ⟨v, e0⟩ := c
      by_cases he : k2 = k
      · subst he
        simp [applyEvent, expire, hg, kvGet_kvSet_self]
      · simpa [applyEvent, expire, hg, kvGet_kvSet_ne kv k2 k _ (Ne.symm he)] using h
  | delE k2 =>
    have he : k2 ≠ k := fun hk => h1 (by rw [hk])
    simpa [applyEvent, kvGet_kvDel_ne kv k2 k (Ne.symm he)] using h
  | evictE k2 =>
    have he : k2 ≠ k := fun hk => h2 (by rw [hk])
    simpa [applyEvent, kvGet_kvDel_ne kv k2 k (Ne.symm he)] using h

theorem key_removed_in_trace (k : String) (es : List Event) (kv : KV)
    (hp : kvGet kv k ≠ none) (ha : kvGet (runTrace kv es) k = none) :
    ∃ ev ∈ es, ev = Event.delE k ∨ ev = Event.evictE k := by
  induction es generalizing kv with
  | nil => exact absurd ha hp
  | cons ev rest ih =>
    by_cases h1 : ev = Event.delE k
    · exact ⟨ev, List.mem_cons_self _ _, Or.inl h1⟩
    · by_cases h2 : ev = Event.evictE k
      · exact ⟨ev, List.mem_cons_self _ _, Or.inr h2⟩
      · have hp2 := applyEvent_keeps_key kv ev k hp h1 h2
        obtain ⟨ev2, hmem, hor⟩ := ih (applyEvent kv ev) hp2 ha
        exact ⟨ev2, List.mem_cons_of_mem _ hmem, hor⟩

/-- C3: mutual exclusion of the lock protocol.  In any interleaved trace
of atomic store events, if one acquirer's `SETNX` on the lock key
succeeds (the key is absent at `pre`) and a later acquirer's `SETNX` on
the same key also succeeds (the key is absent again after `mid`), then
some event of `mid` — a release's delete or the store's lease eviction of
that key — happened in between: at most one acquirer observes
acquire-success per release/expiry of the key. -/
theorem lock_mutual_exclusion (k v : String) (kv : KV)
    (pre mid : List Event)
    (h1 : kvGet (runTrace kv pre) k = none)
    (h2 : kvGet (runTrace kv (pre ++ Event.setnxE k v :: mid)) k = none) :
    ∃ ev ∈ mid, ev = Event.delE k ∨ ev = Event.evictE k := by
  have hrun : runTrace kv (pre ++ Event.setnxE k v :: mid)
      = runTrace (applyEvent (runTrace kv pre) (Event.setnxE k v)) mid := by
    rw [runTrace_append]; rfl
  have hset : applyEvent (runTrace kv pre) (Event.setnxE k v)
      = kvSet (runTrace kv pre) k (v, none) := by
    simp [applyEvent, setnx, h1]
  have hp : kvGet (kvSet (runTrace kv pre) k (v, none)) k ≠ none := by
    simp [kvGet_kvSet_self]
  rw [hrun, hset] at h2
  exact key_removed_in_trace k mid _ hp h2

/-- Witness for C3: a concrete trace in which a second acquire succeeds
only because a delete of the key sits between the two `SETNX`s. -/
theorem lock_mutual_exclusion_wit :
    (kvGet (runTrace [] []) "k" = none
      ∧ kvGet (runTrace [] ([] ++ Event.setnxE "k" "v" :: [Event.delE "k"])) "k"
          = none)
    ∧ ∃ ev ∈ [Event.delE "k"], ev = Event.delE "k" ∨ ev = Event.evictE "k" :=
  ⟨⟨by decide, by decide⟩,
    lock_mutual_exclusion "k" "v" [] [] [Event.delE "k"] (by decide) (by decide)⟩

/-- C4 counterexample: the lease-based handle built by `Redisz.lock` does
not apply the namespace prefix — for the lock name `"a"` the legacy
functions address `"redisz-lock:a"` while the handle addresses `"a"`, a
different store key. -/
theorem lock_key_prefix_cx :
    (Redisz.lock "a" 10 false 2 (1/10) true).name ≠ gen_lock_name "a" := by
  decide

/-- C4 (amended): the two legacy lock functions both map a caller's name
through the same fixed deterministic prefix `"redisz-lock:"`, so legacy
acquire and release of the same name address the same store key; the
lease-based handle instead carries the caller-supplied name verbatim as
its store key. -/
theorem lock_key_prefix_amended :
    (∀ name : String, gen_lock_name name = "redisz-lock:" ++ name)
    ∧ (∀ (name token : String) (lockSec : ℕ) (acquireSec t0 : ℚ)
        (sched : List IterEnv) (kv : KV),
        Redisz.acquire_lock name token lockSec acquireSec t0 sched kv
          = acquireLoop (gen_lock_name name) token (lockSec : ℚ) (t0 + acquireSec)
              sched kv)
    ∧ (∀ (name identifier : String) (sched : List ReleaseEnv) (kv : KV),
        Redisz.release_lock name identifier sched kv
          = releaseLoop (gen_lock_name name) identifier sched kv)
    ∧ (∀ (name : String) (timeout blocking_timeout sleep : ℚ)
        (blocking thread_local : Bool),
        (Redisz.lock name timeout blocking blocking_timeout sleep
          thread_local).name = name) :=
  ⟨fun _ => rfl, fun _ _ _ _ _ _ _ => rfl, fun _ _ _ _ => rfl,
    fun _ _ _ _ _ _ => rfl⟩

theorem lockAcquireLoop_true (key token : String) (lease endT : ℚ)
    (sched : List IterEnv) (kv : KV)
    (h : (lockAcquireLoop key token lease endT sched kv).1 = true) :
    kvGet (lockAcquireLoop key token lease endT sched kv).2 key
      = some (token, some lease) := by
  induction sched generalizing kv with
  | nil => simp [lockAcquireLoop] at h
  | cons e rest ih =>
    by_cases ht : e.time < endT
    · rcases h1 : kvGet (e.interfere kv) key with _ | c
      · have hs : setnxEx (e.interfere kv) key token lease
            = (true, kvSet (e.interfere kv) key (token, some lease)) := by
          simp [setnxEx, h1]
        simp [lockAcquireLoop, ht, hs, kvGet_kvSet_self]
      · have hs : setnxEx (e.interfere kv) key token lease
            = (false, e.interfere kv) := by
          simp [setnxEx, h1]
        simp only [lockAcquireLoop, ht, if_true, hs] at h ⊢
        exact ih _ h
    · simp [lockAcquireLoop, ht] at h

/-- C8: `Redisz.lock` builds the handle with exactly the caller-supplied
name, lease `timeout`, `sleep`, `blocking`, `blocking_timeout` and
`thread_local`; its `acquire` attempts an atomic set-if-absent of the
token under the lease: contended and non-blocking it returns false
immediately with the store untouched, on success the key holds the token
under the lease, and in blocking mode it returns false once
`blocking_timeout` has elapsed past the start time. -/
theorem lock_handle_contract (name : String)
    (timeout blocking_timeout sleep : ℚ) (blocking thread_local : Bool) :
    (Redisz.lock name timeout blocking blocking_timeout sleep thread_local
      = ⟨name, timeout, sleep, blocking, blocking_timeout, thread_local⟩)
    ∧ (∀ (token : String) (t0 : ℚ) (sched : List IterEnv) (kv : KV),
        blocking = false → (kvGet kv name).isSome →
        (Redisz.lock name timeout blocking blocking_timeout sleep
          thread_local).acquire token t0 sched kv = (false, kv))
    ∧ (∀ (token : String) (t0 : ℚ) (sched : List IterEnv) (kv : KV),
        ((Redisz.lock name timeout blocking blocking_timeout sleep
          thread_local).acquire token t0 sched kv).1 = true →
        kvGet ((Redisz.lock name timeout blocking blocking_timeout sleep
          thread_local).acquire token t0 sched kv).2 name
          = some (token, some timeout))
    ∧ (∀ (token : String) (t0 : ℚ) (e : IterEnv) (rest : List IterEnv) (kv : KV),
        blocking = true → t0 + blocking_timeout ≤ e.time →
        (Redisz.lock name timeout blocking blocking_timeout sleep
          thread_local).acquire token t0 (e :: rest) kv = (false, kv)) := by
  refine ⟨rfl, ?_, ?_, ?_⟩
  · intro token t0 sched kv hb hk
    rcases h1 : kvGet kv name with _ | c
    · rw [h1] at hk; simp at hk
    · simp [Redisz.lock, LockHandle.acquire, hb, setnxEx, h1]
  · intro token t0 sched kv h
    by_cases hb : blocking
    · simp only [Redisz.lock, LockHandle.acquire, hb, if_true] at h ⊢
      exact lockAcquireLoop_true _ _ _ _ _ _ h
    · simp only [Redisz.lock, LockHandle.acquire, hb, if_false] at h ⊢
      rcases h1 : kvGet kv name with _ | c
      · have hs : setnxEx kv name token timeout
            = (true, kvSet kv name (token, some timeout)) := by
          simp [setnxEx, h1]
        simp [hs, kvGet_kvSet_self]
      · simp [setnxEx, h1] at h
  · intro token t0 e rest kv hb ht
    simp [Redisz.lock, LockHandle.acquire, hb, lockAcquireLoop, not_lt.mpr ht]

/-- Witness for C8: a contended non-blocking acquire returns false with
the store untouched, and a blocking acquire whose first poll is already
past the deadline returns false. -/
theorem lock_handle_contract_wit :
    ((false = false ∧ (kvGet [("n", ("x", none))] "n").isSome = true)
      ∧ (Redisz.lock "n" 7 false 2 1 true).acquire "t" 0 [] [("n", ("x", none))]
          = (false, [("n", ("x", none))]))
    ∧ ((true = true ∧ (0 : ℚ) + 2 ≤ (⟨2, fun s => s⟩ : IterEnv).time)
      ∧ (Redisz.lock "n" 7 true 2 1 true).acquire "t" 0 [⟨2, fun s => s⟩] []
          = (false, [])) :=
  ⟨⟨⟨rfl, by decide⟩,
    (lock_handle_contract "n" 7 2 1 false true).2.1 "t" 0 [] [("n", ("x", none))]
      rfl (by decide)⟩,
    ⟨⟨rfl, by simp⟩,
    (lock_handle_contract "n" 7 2 1 true true).2.2.2 "t" 0 ⟨2, fun s => s⟩ [] []
      rfl (by simp)⟩⟩
